import Mathlib

/-!
# FileManager.cpp: an interactive file manager

A shallow embedding of `src/FileManager.cpp` and the properties proved of it.

* Text (`std::string`, `fs::path` in native POSIX format) is `String`.
* The host filesystem is a parameter: a `Host σ` gives the outcome of every
  `std::filesystem` function the program calls, over an abstract disk state `σ`.
  A thrown `fs::filesystem_error` is `Except.error` carrying `e.what()`.
* `World σ` is what the program can change or show: the field `currentPath`,
  the disk, the text written to `std::cout` (one list element per output
  statement, in order) and the log of `std::filesystem` calls made.
* `while` loops run on fuel; `none` means the loop has not left within the fuel.
-/

namespace FileManager

/-! ## Strings and paths -/

/-- `std::string::operator[]` at position 0: the first character, and the
terminating null character when the string is empty. -/
def charAt0 (s : String) : Char :=
  match s.data with
  | [] => Char.ofNat 0
  | c :: _ => c

/-- `std::string::find(" ")` on the characters of a string: the position of
the first space, `none` for `string::npos`. -/
def findSpace : List Char → Option Nat
  | [] => none
  | c :: cs => if c = ' ' then some 0 else (findSpace cs).map (· + 1)

/-- `command.find(" ")`. -/
def find (command : String) : Option Nat := findSpace command.data

/-- `command.substr(0, pos)`. -/
def substr (command : String) (pos : Nat) : String := ⟨command.data.take pos⟩

/-- `command.erase(0, n)`. -/
def erase (command : String) (n : Nat) : String := ⟨command.data.drop n⟩

/-- `fs::path::is_absolute` on POSIX: the path has a root directory. -/
def is_absolute (p : String) : Bool := charAt0 p == '/'

/-- `fs::path::has_filename` on POSIX: the path is not empty and does not end
in a separator. -/
def has_filename (p : String) : Bool :=
  match p.data.getLast? with
  | none => false
  | some c => c != '/'

/-- `fs::path::operator/` on POSIX (`lhs / rhs`): an absolute right operand
replaces the left one; otherwise a separator is added when the left operand
has a filename, and the right operand is appended. -/
def path_append (lhs rhs : String) : String :=
  if is_absolute rhs then rhs
  else if has_filename lhs then lhs ++ "/" ++ rhs
  else lhs ++ rhs

/-- `fs::path::parent_path` on POSIX: a path with no relative part (empty, or
separators only) is its own parent; otherwise the last component and the
separators before it are removed, the root directory kept. -/
def parent_path (p : String) : String :=
  if p.data.all (· == '/') then p
  else
    let trimmed := ((p.data.reverse.dropWhile (· != '/')).dropWhile (· == '/')).reverse
    if trimmed.isEmpty then (if is_absolute p then "/" else "")
    else ⟨trimmed⟩

/-- `operator<<` of `fs::path`: the native string as `std::quoted` writes it,
between double quotes, with a backslash before each double quote and
backslash. -/
def quoted (p : String) : String :=
  ⟨'"' :: (p.data.flatMap fun c => if c = '"' ∨ c = '\\' then ['\\', c] else [c]) ++ ['"']⟩

/-! ## The host filesystem and the world -/

/-- One call of a `std::filesystem` function, with the paths handed to it. -/
inductive Call where
  | fs_exists (p : String)
  | is_directory (p : String)
  | canonical (p : String)
  | directory_iterator (p : String)
  | create_directory (p : String)
  | copy (src dst : String)
  | rename (src dst : String)
  | remove_all (p : String)
deriving DecidableEq

/-- The `std::filesystem` functions the program uses. Status queries read the
disk; the four modifying functions also return the disk they leave. The
iterator yields the filenames of the entries of a directory, in host order. -/
structure Host (σ : Type) where
  fs_exists : σ → String → Except String Bool
  is_directory : σ → String → Except String Bool
  canonical : σ → String → Except String String
  directory_iterator : σ → String → Except String (List String)
  create_directory : σ → String → Except String Bool × σ
  copy : σ → String → String → Except String Unit × σ
  rename : σ → String → String → Except String Unit × σ
  remove_all : σ → String → Except String Nat × σ

/-- The program state together with its environment. -/
structure World (σ : Type) where
  currentPath : String
  disk : σ
  cout : List String
  calls : List Call

variable {σ : Type}

/-- One output statement `cout << ... ;`. -/
def emit (st : World σ) (text : String) : World σ :=
  { st with cout := st.cout ++ [text] }

/-- Record a call of a `std::filesystem` function. -/
def log (st : World σ) (c : Call) : World σ :=
  { st with calls := st.calls ++ [c] }

/-! ## The commands -/

/-- `FileManager::displayHelp`. -/
def displayHelp (st : World σ) : World σ :=
  let st := emit st "\nAvailable Commands:\n"
  let st := emit st "ls              - List files and directories\n"
  let st := emit st "cd <path>       - Change directory\n"
  let st := emit st "mkdir <name>    - Create new directory\n"
  let st := emit st "cp <src> <dest> - Copy file\n"
  let st := emit st "mv <src> <dest> - Move file\n"
  let st := emit st "rm <name>       - Remove file\n"
  let st := emit st "pwd             - Print working directory\n"
  let st := emit st "help            - Show this help message\n"
  emit st "exit            - Exit program\n"

/-- `lhs < rhs` on filenames (`fs::path::operator<` on paths of one component):
the lexicographic comparison of the native strings, character by character. -/
def pathLess : List Char → List Char → Bool
  | _, [] => false
  | [], _ :: _ => true
  | a :: as, b :: bs =>
    if a.toNat < b.toNat then true
    else if b.toNat < a.toNat then false
    else pathLess as bs

/-- The comparator handed to `std::sort` in `listDirectory`, on the entries
`a` and `b` of directory `dir` (an entry is held by its filename; its path is
`dir / name`). Returns what the lambda returns or throws, and the call log. -/
def comp (h : Host σ) (disk : σ) (dir a b : String) (calls : List Call) :
    Except String Bool × List Call :=
  let pa := path_append dir a
  let pb := path_append dir b
  -- if (fs::is_directory(a) && !fs::is_directory(b)) return true;
  let calls := calls ++ [.is_directory pa]
  match h.is_directory disk pa with
  | .error e => (.error e, calls)
  | .ok da =>
    let first : Except String Bool × List Call :=
      if da then
        (match h.is_directory disk pb with
          | .error e => (.error e, calls ++ [.is_directory pb])
          | .ok db => (.ok (!db), calls ++ [.is_directory pb]))
      else (.ok false, calls)
    match first with
    | (.error e, calls) => (.error e, calls)
    | (.ok true, calls) => (.ok true, calls)
    | (.ok false, calls) =>
      -- if (!fs::is_directory(a) && fs::is_directory(b)) return false;
      let calls := calls ++ [.is_directory pa]
      match h.is_directory disk pa with
      | .error e => (.error e, calls)
      | .ok da2 =>
        let second : Except String Bool × List Call :=
          if !da2 then
            (match h.is_directory disk pb with
              | .error e => (.error e, calls ++ [.is_directory pb])
              | .ok db => (.ok db, calls ++ [.is_directory pb]))
          else (.ok false, calls)
        match second with
        | (.error e, calls) => (.error e, calls)
        | (.ok true, calls) => (.ok false, calls)
        -- return a.path().filename() < b.path().filename();
        | (.ok false, calls) => (.ok (pathLess a.data b.data), calls)

/-- Insertion of one entry into an ordered list with a comparator that may
throw. -/
def insertSorted (lt : String → String → List Call → Except String Bool × List Call)
    (a : String) : List String → List Call → Except String (List String) × List Call
  | [], calls => (.ok [a], calls)
  | b :: l, calls =>
    match lt a b calls with
    | (.error e, calls) => (.error e, calls)
    | (.ok true, calls) => (.ok (a :: b :: l), calls)
    | (.ok false, calls) =>
      match insertSorted lt a l calls with
      | (.error e, calls) => (.error e, calls)
      | (.ok l2, calls) => (.ok (b :: l2), calls)

/-- `std::sort(items.begin(), items.end(), comp)`, modelled by insertion sort.
The standard leaves the algorithm open; for a comparator that is a strict
total order on the entries every conforming algorithm returns the same
ordered list. An exception of the comparator leaves the sort. -/
def sort (lt : String → String → List Call → Except String Bool × List Call) :
    List String → List Call → Except String (List String) × List Call
  | [], calls => (.ok [], calls)
  | a :: l, calls =>
    match sort lt l calls with
    | (.error e, calls) => (.error e, calls)
    | (.ok l2, calls) => insertSorted lt a l2 calls

/-- The display loop of `listDirectory`: one line per entry. -/
def displayItems (h : Host σ) (dir : String) : List String → World σ → Except String Unit × World σ
  | [], st => (.ok (), st)
  | entry :: rest, st =>
    let st := log st (.is_directory (path_append dir entry))
    match h.is_directory st.disk (path_append dir entry) with
    | .error e => (.error e, st)
    | .ok d =>
      let pre := if d then "[DIR] " else "[FILE] "
      displayItems h dir rest (emit st (pre ++ entry ++ "\n"))

/-- `FileManager::listDirectory`. -/
def listDirectory (h : Host σ) (st : World σ) : World σ :=
  let st := emit st ("\nContents of " ++ quoted st.currentPath ++ ":\n")
  let st := log st (.directory_iterator st.currentPath)
  match h.directory_iterator st.disk st.currentPath with
  | .error e => emit st ("Error listing directory: " ++ e ++ "\n")
  | .ok items =>
    match sort (comp h st.disk st.currentPath) items st.calls with
    | (.error e, calls) => emit { st with calls := calls } ("Error listing directory: " ++ e ++ "\n")
    | (.ok items, calls) =>
      match displayItems h st.currentPath items { st with calls := calls } with
      | (.error e, st) => emit st ("Error listing directory: " ++ e ++ "\n")
      | (.ok _, st) => st

/-- The path `changeDirectory` computes into `newPath` for its argument. -/
def newPath (currentPath path : String) : String :=
  if path = ".." then parent_path currentPath
  else if charAt0 path = '/' then path
  else path_append currentPath path

/-- `FileManager::changeDirectory`. -/
def changeDirectory (h : Host σ) (st : World σ) (path : String) : World σ :=
  let np := newPath st.currentPath path
  let st := log st (.fs_exists np)
  match h.fs_exists st.disk np with
  | .error e => emit st ("Error changing directory: " ++ e ++ "\n")
  | .ok false => emit st ("Directory does not exist: " ++ quoted np ++ "\n")
  | .ok true =>
    let st := log st (.is_directory np)
    match h.is_directory st.disk np with
    | .error e => emit st ("Error changing directory: " ++ e ++ "\n")
    | .ok false => emit st ("Directory does not exist: " ++ quoted np ++ "\n")
    | .ok true =>
      let st := log st (.canonical np)
      match h.canonical st.disk np with
      | .error e => emit st ("Error changing directory: " ++ e ++ "\n")
      | .ok c =>
        let st := { st with currentPath := c }
        emit st ("Changed directory to: " ++ quoted st.currentPath ++ "\n")

/-- `FileManager::createDirectory`. -/
def createDirectory (h : Host σ) (st : World σ) (name : String) : World σ :=
  let newDir := path_append st.currentPath name
  let st := log st (.create_directory newDir)
  match h.create_directory st.disk newDir with
  | (.error e, disk) => emit { st with disk := disk } ("Error creating directory: " ++ e ++ "\n")
  | (.ok true, disk) => emit { st with disk := disk } ("Created directory: " ++ quoted newDir ++ "\n")
  | (.ok false, disk) => emit { st with disk := disk } "Failed to create directory\n"

/-- `FileManager::copyFile`. -/
def copyFile (h : Host σ) (st : World σ) (source dest : String) : World σ :=
  let sourcePath := path_append st.currentPath source
  let destPath := path_append st.currentPath dest
  let st := log st (.fs_exists sourcePath)
  match h.fs_exists st.disk sourcePath with
  | .error e => emit st ("Error copying file: " ++ e ++ "\n")
  | .ok false => emit st "Source file does not exist\n"
  | .ok true =>
    let st := log st (.copy sourcePath destPath)
    match h.copy st.disk sourcePath destPath with
    | (.error e, disk) => emit { st with disk := disk } ("Error copying file: " ++ e ++ "\n")
    | (.ok _, disk) => emit { st with disk := disk } ("Copied " ++ source ++ " to " ++ dest ++ "\n")

/-- `FileManager::moveFile`. -/
def moveFile (h : Host σ) (st : World σ) (source dest : String) : World σ :=
  let sourcePath := path_append st.currentPath source
  let destPath := path_append st.currentPath dest
  let st := log st (.fs_exists sourcePath)
  match h.fs_exists st.disk sourcePath with
  | .error e => emit st ("Error moving file: " ++ e ++ "\n")
  | .ok false => emit st "Source file does not exist\n"
  | .ok true =>
    let st := log st (.rename sourcePath destPath)
    match h.rename st.disk sourcePath destPath with
    | (.error e, disk) => emit { st with disk := disk } ("Error moving file: " ++ e ++ "\n")
    | (.ok _, disk) => emit { st with disk := disk } ("Moved " ++ source ++ " to " ++ dest ++ "\n")

/-- `FileManager::removeFile`. -/
def removeFile (h : Host σ) (st : World σ) (name : String) : World σ :=
  let path := path_append st.currentPath name
  let st := log st (.fs_exists path)
  match h.fs_exists st.disk path with
  | .error e => emit st ("Error removing file: " ++ e ++ "\n")
  | .ok false => emit st "File or directory does not exist\n"
  | .ok true =>
    let st := log st (.remove_all path)
    match h.remove_all st.disk path with
    | (.error e, disk) => emit { st with disk := disk } ("Error removing file: " ++ e ++ "\n")
    | (.ok _, disk) => emit { st with disk := disk } ("Removed: " ++ name ++ "\n")

/-! ## The command loop -/

/-- `std::cin`: the characters not yet read and the two state bits the
program can meet. -/
structure IStream where
  buf : List Char
  eofbit : Bool
  failbit : Bool

/-- The characters of `buf` before the first newline, what follows that
newline, and whether a newline was found. -/
def splitLine : List Char → List Char × List Char × Bool
  | [] => ([], [], false)
  | c :: cs =>
    if c = '\n' then ([], cs, true)
    else
      let r := splitLine cs
      (c :: r.1, r.2.1, r.2.2)

/-- `getline(cin, command)`. When the stream is not good the sentry fails:
`failbit` is set and `command` is left as it was. Otherwise `command` is
erased and filled up to the next newline, which is consumed; reaching the
end of input sets `eofbit`, and also `failbit` when nothing was extracted. -/
def getline (cin : IStream) (command : String) : IStream × String :=
  if cin.eofbit || cin.failbit then ({ cin with failbit := true }, command)
  else
    let r := splitLine cin.buf
    if r.2.2 then ({ cin with buf := r.2.1 }, ⟨r.1⟩)
    else ({ buf := [], eofbit := true, failbit := r.1.isEmpty }, ⟨r.1⟩)

/-- The tokenizing loop of `start`:
`while ((pos = command.find(" ")) != npos) { args.push_back(command.substr(0, pos)); command.erase(0, pos + 1); }`.
Returns `args` and `command` as the loop leaves them. -/
def tokenizeLoop : Nat → String → List String → Option (List String × String)
  | 0, _, _ => none
  | fuel + 1, command, args =>
    match find command with
    | some pos => tokenizeLoop fuel (erase command (pos + 1)) (args ++ [substr command pos])
    | none => some (args, command)

/-- The token vector `args` of `start` for one input line: the loop, then
`args.push_back(command)`. -/
def tokenize (command : String) : Option (List String) :=
  (tokenizeLoop (command.length + 1) command []).map fun r => r.1 ++ [r.2]

/-- How one pass through the body of `while (true)` ends. -/
inductive Flow where
  | next
  | stop
deriving DecidableEq

/-- The `if` chain of `start` on the token vector. -/
def dispatch (h : Host σ) (st : World σ) (args : List String) : Flow × World σ :=
  let cmd := args.headD ""
  if cmd = "exit" then (.stop, st)
  else if cmd = "help" then (.next, displayHelp st)
  else if cmd = "ls" then (.next, listDirectory h st)
  else if cmd = "pwd" then (.next, emit st (quoted st.currentPath ++ "\n"))
  else if cmd = "cd" ∧ args.length > 1 then (.next, changeDirectory h st (args.getD 1 ""))
  else if cmd = "mkdir" ∧ args.length > 1 then (.next, createDirectory h st (args.getD 1 ""))
  else if cmd = "cp" ∧ args.length > 2 then (.next, copyFile h st (args.getD 1 "") (args.getD 2 ""))
  else if cmd = "mv" ∧ args.length > 2 then (.next, moveFile h st (args.getD 1 "") (args.getD 2 ""))
  else if cmd = "rm" ∧ args.length > 1 then (.next, removeFile h st (args.getD 1 ""))
  else (.next, emit st "Invalid command. Type 'help' for available commands.\n")

/-- The body of `while (true)` from `if (command.empty()) continue;` on, for
the line now in `command`. Returns how the pass ends, the world, and the
variable `command` as the pass leaves it. -/
def iteration (h : Host σ) (st : World σ) (command : String) :
    Option (Flow × World σ × String) :=
  if command.data = [] then some (.next, st, command)
  else
    match tokenizeLoop (command.length + 1) command [] with
    | none => none
    | some (args, command) =>
      let r := dispatch h st (args ++ [command])
      some (r.1, r.2, command)

/-- The loop `while (true)` of `start`; `command` is the variable declared
before the loop. `some` is the world when the loop is left by `break`. -/
def startLoop (h : Host σ) : Nat → World σ → IStream → String → Option (World σ)
  | 0, _, _, _ => none
  | fuel + 1, st, cin, command =>
    let st := emit st ("\n" ++ quoted st.currentPath ++ "> ")
    let r := getline cin command
    match iteration h st r.2 with
    | none => none
    | some (.stop, st, _) => some st
    | some (.next, st, command) => startLoop h fuel st r.1 command

/-- `FileManager::start`. -/
def start (h : Host σ) (fuel : Nat) (st : World σ) (cin : IStream) : Option (World σ) :=
  let st := emit st "\nUmer File Manager\n"
  let st := emit st "Type 'help' for available commands\n"
  startLoop h fuel st cin ""

/-- `main`: construct the manager in the process's current directory, run
`start`, return 0. -/
def main (h : Host σ) (fuel : Nat) (current_path : String) (disk : σ) (cin : IStream) :
    Option (Int × World σ) :=
  (start h fuel { currentPath := current_path, disk := disk, cout := [], calls := [] } cin).map
    fun st => (0, st)

/-! ## A small host for concrete runs -/

/-- The filename of a path: the characters after the last separator. -/
def filename (p : String) : String :=
  ⟨(p.data.reverse.takeWhile (· != '/')).reverse⟩

/-- An in-memory filesystem on which the program is run at concrete inputs.
The disk lists every existing path with whether it is a directory; paths are
taken literally (`.` and `..` are not interpreted, there are no links). -/
def memHost : Host (List (String × Bool)) where
  fs_exists d p := .ok (d.any fun e => e.1 = p)
  is_directory d p := .ok (d.any fun e => e.1 = p ∧ e.2)
  canonical d p :=
    if d.any (fun e => e.1 = p) then .ok p else .error "No such file or directory"
  directory_iterator d p :=
    if d.any (fun e => e.1 = p ∧ e.2) then
      .ok ((d.filter fun e => parent_path e.1 = p ∧ e.1 ≠ p).map fun e => filename e.1)
    else .error "No such file or directory"
  create_directory d p :=
    if d.any (fun e => e.1 = p) then (.ok false, d) else (.ok true, d ++ [(p, true)])
  copy d s t :=
    match d.find? (fun e => e.1 = s) with
    | none => (.error "No such file or directory", d)
    | some e => (.ok (), (d.filter fun x => x.1 ≠ t) ++ [(t, e.2)])
  rename d s t :=
    match d.find? (fun e => e.1 = s) with
    | none => (.error "No such file or directory", d)
    | some e => (.ok (), (d.filter fun x => x.1 ≠ s ∧ x.1 ≠ t) ++ [(t, e.2)])
  remove_all d p :=
    (.ok (d.filter fun x => x.1 = p).length, d.filter fun x => x.1 ≠ p)

/-- A disk with the directories `/`, `/a`, `/a/b`, `/a/docs` and the files
`/a/x`, `/a/readme`. -/
def sampleDisk : List (String × Bool) :=
  [("/", true), ("/a", true), ("/a/x", false), ("/a/docs", true), ("/a/b", true),
   ("/a/readme", false)]

/-- The program in directory `dir` of `sampleDisk`, nothing written yet. -/
def sampleWorld (dir : String) : World (List (String × Bool)) :=
  { currentPath := dir, disk := sampleDisk, cout := [], calls := [] }

/-- The order of the listing on entries of known kind: a directory stands
before a non-directory, entries of one kind stand in order of their names. -/
def listedBefore (kind : String → Bool) (a b : String) : Prop :=
  (kind a = true ∧ kind b = false) ∨ (kind a = kind b ∧ a ≤ b)

/-! ## Properties -/

/-- C1. A failed `cd` leaves the working directory unchanged: when the path
computed from the argument does not exist, is not a directory, or `exists`,
`is_directory` or `canonical` throws on it, `currentPath` after
`changeDirectory` is `currentPath` before (and the disk is untouched). -/
theorem changeDirectory_failed_keeps_currentPath (h : Host σ) (st : World σ) (path : String)
    (hfail : h.fs_exists st.disk (newPath st.currentPath path) = .ok false ∨
      h.is_directory st.disk (newPath st.currentPath path) = .ok false ∨
      (∃ e, h.fs_exists st.disk (newPath st.currentPath path) = .error e) ∨
      (∃ e, h.is_directory st.disk (newPath st.currentPath path) = .error e) ∨
      (∃ e, h.canonical st.disk (newPath st.currentPath path) = .error e)) :
    (changeDirectory h st path).currentPath = st.currentPath ∧
      (changeDirectory h st path).disk = st.disk := by
  unfold changeDirectory
  simp only [log, emit]
  cases hE : h.fs_exists st.disk (newPath st.currentPath path) with
  | error e => simp
  | ok b =>
    cases b with
    | false => simp
    | true =>
      cases hD : h.is_directory st.disk (newPath st.currentPath path) with
      | error e => simp
      | ok b =>
        cases b with
        | false => simp
        | true =>
          cases hC : h.canonical st.disk (newPath st.currentPath path) with
          | error e => simp
          | ok c => simp_all

/-- Witness for C1: `cd nope` in `/a` of the sample disk. -/
theorem changeDirectory_failed_keeps_currentPath_witness :
    (changeDirectory memHost (sampleWorld "/a") "nope").currentPath = "/a" ∧
      (changeDirectory memHost (sampleWorld "/a") "nope").disk = sampleDisk :=
  changeDirectory_failed_keeps_currentPath memHost (sampleWorld "/a") "nope"
    (Or.inl rfl)

/-- C10. A successful `cd` sets the working directory to the canonical form
of the computed path `r` (the parent of the working directory for `..`, the
argument itself when it begins with `/`, the working directory joined with
the argument otherwise): when `r` exists, is a directory and `canonical`
returns `c`, then `currentPath` becomes `c` and the one line written is
`Changed directory to: ` followed by `c` as the stream writes a path. Whatever
holds of every path `canonical` returns (no `..` component, say) then holds
of `currentPath`. -/
theorem changeDirectory_success (h : Host σ) (st : World σ) (path c : String)
    (hex : h.fs_exists st.disk (newPath st.currentPath path) = .ok true)
    (hdir : h.is_directory st.disk (newPath st.currentPath path) = .ok true)
    (hcan : h.canonical st.disk (newPath st.currentPath path) = .ok c) :
    newPath st.currentPath path =
        (if path = ".." then parent_path st.currentPath
         else if charAt0 path = '/' then path
         else path_append st.currentPath path) ∧
      (changeDirectory h st path).currentPath = c ∧
      (changeDirectory h st path).cout =
        st.cout ++ ["Changed directory to: " ++ quoted c ++ "\n"] ∧
      (∀ good : String → Prop,
        (∀ p q, h.canonical st.disk p = .ok q → good q) →
          good (changeDirectory h st path).currentPath) := by
  have key : changeDirectory h st path =
      emit { log (log (log st (.fs_exists (newPath st.currentPath path)))
        (.is_directory (newPath st.currentPath path)))
        (.canonical (newPath st.currentPath path)) with currentPath := c }
        ("Changed directory to: " ++ quoted c ++ "\n") := by
    unfold changeDirectory
    simp only [log, emit, hex, hdir, hcan]
  refine ⟨rfl, ?_, ?_, ?_⟩
  · rw [key]; rfl
  · rw [key]; rfl
  · intro good hgood
    rw [key]
    exact hgood _ _ hcan

/-- Witness for C10: `cd b` in `/a` of the sample disk. -/
theorem changeDirectory_success_witness :
    (changeDirectory memHost (sampleWorld "/a") "b").currentPath = "/a/b" ∧
      (changeDirectory memHost (sampleWorld "/a") "b").cout =
        ["Changed directory to: \"/a/b\"\n"] :=
  have t := changeDirectory_success memHost (sampleWorld "/a") "b" "/a/b"
    rfl rfl rfl
  ⟨t.2.1, t.2.2.1⟩


/-! ### The tokenizer -/

theorem findSpace_none : ∀ {cs : List Char}, findSpace cs = none → ' ' ∉ cs
  | [], _ => by simp
  | c :: cs, h => by
    unfold findSpace at h
    split at h
    · simp at h
    · rename_i hc
      have h2 : findSpace cs = none := by simpa using h
      have := findSpace_none h2
      simp only [List.mem_cons, not_or]
      exact ⟨fun e => hc e.symm, this⟩

theorem findSpace_some : ∀ {cs : List Char} {pos : Nat}, findSpace cs = some pos →
    pos < cs.length ∧ ' ' ∉ cs.take pos ∧ cs.take pos ++ ' ' :: cs.drop (pos + 1) = cs
  | [], _, h => by simp [findSpace] at h
  | c :: cs, pos, h => by
    unfold findSpace at h
    split at h
    · rename_i hc
      have hp : pos = 0 := by simpa using h.symm
      subst hp
      simp [hc]
    · rename_i hc
      cases hq : findSpace cs with
      | none => simp [hq] at h
      | some q =>
        have hp : pos = q + 1 := by simpa [hq] using h.symm
        subst hp
        obtain ⟨h1, h2, h3⟩ := findSpace_some hq
        refine ⟨by simpa using h1, ?_, ?_⟩
        · simp only [List.take_succ_cons, List.mem_cons, not_or]
          exact ⟨fun e => hc e.symm, h2⟩
        · simp only [List.take_succ_cons, List.drop_succ_cons, List.cons_append]
          rw [h3]

/-- The tokenizing loop leaves with enough fuel, and what it leaves: one
token per space, no space in a token, and the tokens followed by a space each,
then the rest, spell the line. -/
theorem tokenizeLoop_spec : ∀ (fuel : Nat) (cs : List Char) (args : List String),
    cs.length < fuel →
    ∃ toks last, tokenizeLoop fuel ⟨cs⟩ args = some (args ++ toks, last) ∧
      toks.length = cs.count ' ' ∧ (∀ t ∈ toks, ' ' ∉ t.data) ∧ ' ' ∉ last.data ∧
      (toks.map fun t => t.data ++ [' ']).flatten ++ last.data = cs
  | 0, _, _, hlt => by omega
  | fuel + 1, cs, args, hlt => by
    unfold tokenizeLoop
    cases hf : find ⟨cs⟩ with
    | none =>
      refine ⟨[], ⟨cs⟩, by simp, ?_, by simp, ?_, by simp⟩
      · have := @findSpace_none cs hf
        simp [List.count_eq_zero.mpr this]
      · exact @findSpace_none cs hf
    | some pos =>
      obtain ⟨h1, h2, h3⟩ := @findSpace_some cs pos hf
      have hlen : (cs.drop (pos + 1)).length < fuel := by
        simp only [List.length_drop]; omega
      obtain ⟨toks, last, e1, e2, e3, e4, e5⟩ :=
        tokenizeLoop_spec fuel (cs.drop (pos + 1)) (args ++ [substr ⟨cs⟩ pos]) hlen
      refine ⟨substr ⟨cs⟩ pos :: toks, last, ?_, ?_, ?_, e4, ?_⟩
      · simp only [erase]
        rw [e1]; simp
      · have hc : cs.count ' ' = (cs.take pos ++ ' ' :: cs.drop (pos + 1)).count ' ' := by rw [h3]
        rw [hc, List.count_append, List.count_cons_self, List.count_eq_zero.mpr h2]
        simp [e2]
      · intro t ht
        rcases List.mem_cons.mp ht with rfl | ht
        · exact h2
        · exact e3 t ht
      · simp only [List.map_cons, List.flatten_cons, substr, List.append_assoc]
        rw [e5]
        simpa using h3


theorem intercalate_go_data : ∀ (rest : List String) (acc : String),
    (String.intercalate.go acc " " rest).data =
      acc.data ++ (rest.map fun a => ' ' :: a.data).flatten
  | [], acc => by simp [String.intercalate.go]
  | a :: rest, acc => by
    rw [String.intercalate.go, intercalate_go_data rest]
    simp [String.data_append]

theorem flatten_shift : ∀ (toks : List String) (t last : String),
    t.data ++ ((toks ++ [last]).map fun a => ' ' :: a.data).flatten =
      ((t :: toks).map fun a => a.data ++ [' ']).flatten ++ last.data
  | [], t, last => by simp
  | u :: toks, t, last => by
    have ih := flatten_shift toks u last
    simp only [List.cons_append, List.map_cons, List.flatten_cons, List.append_assoc] at ih ⊢
    rw [← ih]
    simp

theorem intercalate_data (toks : List String) (last : String) :
    (String.intercalate " " (toks ++ [last])).data =
      (toks.map fun t => t.data ++ [' ']).flatten ++ last.data := by
  cases toks with
  | nil => simp [String.intercalate, String.intercalate.go]
  | cons t toks =>
    simp only [List.cons_append, String.intercalate]
    rw [intercalate_go_data, flatten_shift]

/-- What `tokenize` returns on any line. -/
theorem tokenize_total (s : String) :
    ∃ toks last, tokenizeLoop (s.length + 1) s [] = some (toks, last) ∧
      tokenize s = some (toks ++ [last]) ∧
      (toks ++ [last]).length = s.data.count ' ' + 1 ∧
      (∀ t ∈ toks ++ [last], ' ' ∉ t.data) ∧
      String.intercalate " " (toks ++ [last]) = s := by
  obtain ⟨toks, last, e1, e2, e3, e4, e5⟩ :=
    tokenizeLoop_spec (s.length + 1) s.data [] (Nat.lt_succ_self s.data.length)
  have e1' : tokenizeLoop (s.length + 1) s [] = some (toks, last) := by simpa using e1
  refine ⟨toks, last, e1', ?_, ?_, ?_, ?_⟩
  · simp [tokenize, e1']
  · simp [e2]
  · intro t ht
    rcases List.mem_append.mp ht with ht | ht
    · exact e3 t ht
    · simp only [List.mem_singleton] at ht
      subst ht
      exact e4
  · apply String.ext
    rw [intercalate_data, e5]

/-- C6. Tokenization splits on every single space and keeps empty tokens: for
every non-empty line the tokenizing loop of `start` leaves, the token vector
has one element more than the line has spaces, no token holds a space, the
tokens joined by single spaces spell the line, and the pass through the loop
body dispatches on exactly these tokens. On `cd  foo` (two spaces) the tokens
are `cd`, the empty string and `foo`, and `changeDirectory` is called with the
empty string. -/
theorem tokenize_splits_on_every_space (h : Host σ) (st : World σ) (s : String)
    (hne : s ≠ "") :
    (∃ args last, tokenize s = some args ∧
      args.length = s.data.count ' ' + 1 ∧
      (∀ t ∈ args, ' ' ∉ t.data) ∧
      String.intercalate " " args = s ∧
      iteration h st s = some ((dispatch h st args).1, (dispatch h st args).2, last)) ∧
    tokenize "cd  foo" = some ["cd", "", "foo"] ∧
    iteration h st "cd  foo" = some (.next, changeDirectory h st "", "foo") := by
  refine ⟨?_, by decide, ?_⟩
  · obtain ⟨toks, last, e1, e2, e3, e4, e5⟩ := tokenize_total s
    refine ⟨toks ++ [last], last, e2, e3, e4, e5, ?_⟩
    have hd : s.data ≠ [] := fun hd => hne (String.ext hd)
    simp [iteration, hd, e1]
  · have e : tokenizeLoop ("cd  foo".length + 1) "cd  foo" [] = some (["cd", ""], "foo") := by
      decide
    have hd : ("cd  foo" : String).data ≠ [] := by decide
    simp only [iteration, hd, if_false, e]
    rfl

/-- Witness for C6: the line `rm  a b`. -/
theorem tokenize_splits_on_every_space_witness :
    ∃ args last, tokenize "rm  a b" = some args ∧
      args.length = ("rm  a b" : String).data.count ' ' + 1 ∧
      (∀ t ∈ args, ' ' ∉ t.data) ∧
      String.intercalate " " args = "rm  a b" ∧
      iteration memHost (sampleWorld "/a") "rm  a b" =
        some ((dispatch memHost (sampleWorld "/a") args).1,
          (dispatch memHost (sampleWorld "/a") args).2, last) :=
  (tokenize_splits_on_every_space memHost (sampleWorld "/a") "rm  a b" (by decide)).1


/-! ### Dispatch -/

theorem dispatch_invalid (h : Host σ) (st : World σ) (args : List String)
    (hinv : args.headD "" ∉ ["ls", "cd", "mkdir", "cp", "mv", "rm", "pwd", "help", "exit"] ∨
      (args.headD "" ∈ ["cd", "mkdir", "rm"] ∧ args.length ≤ 1) ∨
      (args.headD "" ∈ ["cp", "mv"] ∧ args.length ≤ 2)) :
    dispatch h st args =
      (.next, emit st "Invalid command. Type 'help' for available commands.\n") := by
  unfold dispatch
  generalize args.headD "" = cmd at hinv
  have h1 : ∀ n : Nat, args.length ≤ n → ¬ args.length > n := fun n hn => by omega
  rcases hinv with hv | ⟨hv, hl⟩ | ⟨hv, hl⟩
  · simp only [List.mem_cons, List.mem_singleton, List.not_mem_nil, or_false, not_or] at hv
    obtain ⟨v1, v2, v3, v4, v5, v6, v7, v8, v9⟩ := hv
    simp [v1, v2, v3, v4, v5, v6, v7, v8, v9]
  · have hl1 := h1 1 hl
    simp only [List.mem_cons, List.mem_singleton, List.not_mem_nil, or_false] at hv
    rcases hv with rfl | rfl | rfl <;> simp [hl1]
  · have hl2 := h1 2 hl
    simp only [List.mem_cons, List.mem_singleton, List.not_mem_nil, or_false] at hv
    rcases hv with rfl | rfl <;> simp [hl2]

/-- C7. Invalid-command dispatch: a non-empty line whose first token is none
of the nine verbs, or is `cd`, `mkdir` or `rm` with no further token, or is
`cp` or `mv` with fewer than two further tokens, writes exactly the line
`Invalid command. Type 'help' for available commands.`, makes no filesystem
call, leaves the disk and the working directory alone, and the loop goes on. -/
theorem invalid_command_dispatch (h : Host σ) (st : World σ) (line : String)
    (hne : line ≠ "")
    (hinv : ∃ args, tokenize line = some args ∧
      (args.headD "" ∉ ["ls", "cd", "mkdir", "cp", "mv", "rm", "pwd", "help", "exit"] ∨
        (args.headD "" ∈ ["cd", "mkdir", "rm"] ∧ args.length ≤ 1) ∨
        (args.headD "" ∈ ["cp", "mv"] ∧ args.length ≤ 2))) :
    ∃ st2 last, iteration h st line = some (.next, st2, last) ∧
      st2.cout = st.cout ++ ["Invalid command. Type 'help' for available commands.\n"] ∧
      st2.calls = st.calls ∧ st2.disk = st.disk ∧ st2.currentPath = st.currentPath := by
  obtain ⟨args, ha, hv⟩ := hinv
  obtain ⟨toks, last, e1, e2, -⟩ := tokenize_total line
  have hargs : args = toks ++ [last] := by
    rw [ha] at e2
    exact Option.some.inj e2
  subst hargs
  have hd : line.data ≠ [] := fun hd => hne (String.ext hd)
  refine ⟨emit st "Invalid command. Type 'help' for available commands.\n", last, ?_,
    rfl, rfl, rfl, rfl⟩
  simp [iteration, hd, e1, dispatch_invalid h st _ hv]

/-- Witness for C7: the line `frobnicate 1 2`. -/
theorem invalid_command_dispatch_witness :
    ∃ st2 last, iteration memHost (sampleWorld "/a") "frobnicate 1 2" = some (.next, st2, last) ∧
      st2.cout = ["Invalid command. Type 'help' for available commands.\n"] ∧
      st2.calls = [] ∧ st2.disk = sampleDisk ∧ st2.currentPath = "/a" :=
  invalid_command_dispatch memHost (sampleWorld "/a") "frobnicate 1 2" (by decide)
    ⟨["frobnicate", "1", "2"], by decide, Or.inl (by decide)⟩


/-! ### The working directory is kept by every command but `cd` -/

theorem displayItems_currentPath (h : Host σ) (dir : String) :
    ∀ (items : List String) (st : World σ),
      (displayItems h dir items st).2.currentPath = st.currentPath
  | [], st => rfl
  | entry :: rest, st => by
    unfold displayItems
    simp only [log]
    split
    · rfl
    · rw [displayItems_currentPath h dir rest]
      rfl

theorem listDirectory_currentPath (h : Host σ) (st : World σ) :
    (listDirectory h st).currentPath = st.currentPath := by
  unfold listDirectory
  simp only [log, emit]
  split
  · rfl
  · split
    · rfl
    · rename_i items calls hs
      have hd := displayItems_currentPath h st.currentPath items
        { currentPath := st.currentPath, disk := st.disk,
          cout := st.cout ++ ["\nContents of " ++ quoted st.currentPath ++ ":\n"],
          calls := calls }
      split
      · rename_i e st2 hst
        rw [hst] at hd
        exact hd
      · rename_i u st2 hst
        rw [hst] at hd
        exact hd

theorem createDirectory_currentPath (h : Host σ) (st : World σ) (name : String) :
    (createDirectory h st name).currentPath = st.currentPath := by
  unfold createDirectory
  simp only [log, emit]
  split <;> rfl

theorem copyFile_currentPath (h : Host σ) (st : World σ) (source dest : String) :
    (copyFile h st source dest).currentPath = st.currentPath := by
  unfold copyFile
  simp only [log, emit]
  split
  · rfl
  · rfl
  · split <;> rfl

theorem moveFile_currentPath (h : Host σ) (st : World σ) (source dest : String) :
    (moveFile h st source dest).currentPath = st.currentPath := by
  unfold moveFile
  simp only [log, emit]
  split
  · rfl
  · rfl
  · split <;> rfl

theorem removeFile_currentPath (h : Host σ) (st : World σ) (name : String) :
    (removeFile h st name).currentPath = st.currentPath := by
  unfold removeFile
  simp only [log, emit]
  split
  · rfl
  · rfl
  · split <;> rfl

theorem dispatch_currentPath (h : Host σ) (st : World σ) (args : List String)
    (hnotcd : ¬ (args.headD "" = "cd" ∧ args.length > 1)) :
    (dispatch h st args).2.currentPath = st.currentPath := by
  unfold dispatch
  simp only []
  split_ifs
  · rfl
  · rfl
  · exact listDirectory_currentPath h st
  · rfl
  · exact createDirectory_currentPath h st _
  · exact copyFile_currentPath h st _ _
  · exact moveFile_currentPath h st _ _
  · exact removeFile_currentPath h st _
  · rfl

/-- C2. The working directory is changed only by `cd` with an argument: for
every line whose tokens are not `cd` followed by at least one more token
(help, ls, pwd, mkdir, cp, mv, rm, an invalid command, the empty line), on
every host and disk, the pass through the loop body ends and `currentPath`
after it is `currentPath` before it. Two `pwd` lines in a row write the same
text. -/
theorem currentPath_changed_only_by_cd (h : Host σ) (st : World σ) (line : String)
    (hnotcd : ∃ args, tokenize line = some args ∧
      ¬ (args.headD "" = "cd" ∧ args.length > 1)) :
    (∃ flow st2 last, iteration h st line = some (flow, st2, last) ∧
      st2.currentPath = st.currentPath) ∧
    (∃ st1 st2, iteration h st "pwd" = some (.next, st1, "pwd") ∧
      iteration h st1 "pwd" = some (.next, st2, "pwd") ∧
      st1.cout = st.cout ++ [quoted st.currentPath ++ "\n"] ∧
      st2.cout = st1.cout ++ [quoted st.currentPath ++ "\n"]) := by
  constructor
  · obtain ⟨args, ha, hv⟩ := hnotcd
    obtain ⟨toks, last, e1, e2, -⟩ := tokenize_total line
    have hargs : args = toks ++ [last] := by
      rw [ha] at e2
      exact Option.some.inj e2
    subst hargs
    by_cases hd : line.data = []
    · exact ⟨.next, st, line, by simp [iteration, hd], rfl⟩
    · exact ⟨(dispatch h st (toks ++ [last])).1, (dispatch h st (toks ++ [last])).2, last,
        by simp [iteration, hd, e1], dispatch_currentPath h st _ hv⟩
  · have e : tokenizeLoop ("pwd".length + 1) "pwd" [] = some ([], "pwd") := by decide
    have hd : ("pwd" : String).data ≠ [] := by decide
    have hp : ∀ w : World σ, iteration h w "pwd" =
        some (.next, emit w (quoted w.currentPath ++ "\n"), "pwd") := by
      intro w
      simp only [iteration, hd, if_false, e]
      rfl
    exact ⟨_, _, hp st, hp _, rfl, rfl⟩

/-- Witness for C2: the line `rm x` in `/a` of the sample disk. -/
theorem currentPath_changed_only_by_cd_witness :
    ∃ flow st2 last, iteration memHost (sampleWorld "/a") "rm x" = some (flow, st2, last) ∧
      st2.currentPath = "/a" :=
  (currentPath_changed_only_by_cd memHost (sampleWorld "/a") "rm x"
    ⟨["rm", "x"], by decide, by decide⟩).1


/-! ### Copy, move, list, and the paths handed to the host -/

/-- C8. Missing-source guard: when the source path `currentPath / source`
does not exist, `copyFile` and `moveFile` each write exactly
`Source file does not exist`, make the existence query and no other call
(neither `copy` nor `rename`), and leave the disk and the working directory
as they were. -/
theorem missing_source_guard (h : Host σ) (st : World σ) (source dest : String)
    (hmiss : h.fs_exists st.disk (path_append st.currentPath source) = .ok false) :
    ((copyFile h st source dest).cout = st.cout ++ ["Source file does not exist\n"] ∧
      (copyFile h st source dest).calls =
        st.calls ++ [.fs_exists (path_append st.currentPath source)] ∧
      (copyFile h st source dest).disk = st.disk ∧
      (copyFile h st source dest).currentPath = st.currentPath) ∧
    ((moveFile h st source dest).cout = st.cout ++ ["Source file does not exist\n"] ∧
      (moveFile h st source dest).calls =
        st.calls ++ [.fs_exists (path_append st.currentPath source)] ∧
      (moveFile h st source dest).disk = st.disk ∧
      (moveFile h st source dest).currentPath = st.currentPath) := by
  have hc : copyFile h st source dest =
      emit (log st (.fs_exists (path_append st.currentPath source)))
        "Source file does not exist\n" := by
    unfold copyFile
    simp only [log, emit, hmiss]
  have hm : moveFile h st source dest =
      emit (log st (.fs_exists (path_append st.currentPath source)))
        "Source file does not exist\n" := by
    unfold moveFile
    simp only [log, emit, hmiss]
  rw [hc, hm]
  exact ⟨⟨rfl, rfl, rfl, rfl⟩, ⟨rfl, rfl, rfl, rfl⟩⟩

/-- Witness for C8: `cp nope readme` and `mv nope readme` in `/a` of the
sample disk, where `/a/nope` does not exist and `/a/readme` does. -/
theorem missing_source_guard_witness :
    memHost.fs_exists sampleDisk (path_append "/a" "nope") = .ok false ∧
    (copyFile memHost (sampleWorld "/a") "nope" "readme").cout =
      ["Source file does not exist\n"] ∧
    (copyFile memHost (sampleWorld "/a") "nope" "readme").disk = sampleDisk ∧
    (moveFile memHost (sampleWorld "/a") "nope" "readme").cout =
      ["Source file does not exist\n"] ∧
    (moveFile memHost (sampleWorld "/a") "nope" "readme").disk = sampleDisk :=
  have t := missing_source_guard memHost (sampleWorld "/a") "nope" "readme" rfl
  ⟨rfl, t.1.1, t.1.2.2.1, t.2.1, t.2.2.2.1⟩

/-- C9, counterexample. Listing `/gone`, which is not on the sample disk: the
iterator throws, and the output is the header line followed by the error
line, not the error line alone. -/
theorem listDirectory_error_has_header :
    memHost.directory_iterator sampleDisk "/gone" = .error "No such file or directory" ∧
    (listDirectory memHost (sampleWorld "/gone")).cout =
      ["\nContents of \"/gone\":\n",
       "Error listing directory: No such file or directory\n"] ∧
    decide ((listDirectory memHost (sampleWorld "/gone")).cout =
      ["Error listing directory: No such file or directory\n"]) = false :=
  ⟨rfl, by decide, by decide⟩

/-- C9, amended. When the directory iterator throws, `listDirectory` writes
the header `Contents of <currentPath>:` and then one line
`Error listing directory: <message>`; no entry line is written, and disk and
working directory stay as they were. -/
theorem listDirectory_iterator_error (h : Host σ) (st : World σ) (e : String)
    (herr : h.directory_iterator st.disk st.currentPath = .error e) :
    (listDirectory h st).cout =
      st.cout ++ ["\nContents of " ++ quoted st.currentPath ++ ":\n",
        "Error listing directory: " ++ e ++ "\n"] ∧
    (listDirectory h st).disk = st.disk ∧
    (listDirectory h st).currentPath = st.currentPath := by
  have hl : listDirectory h st =
      emit (log (emit st ("\nContents of " ++ quoted st.currentPath ++ ":\n"))
        (.directory_iterator st.currentPath)) ("Error listing directory: " ++ e ++ "\n") := by
    unfold listDirectory
    simp only [log, emit, herr]
  rw [hl]
  refine ⟨?_, rfl, rfl⟩
  simp [emit, log]

/-- Witness for C9 (amended): listing `/gone` on the sample disk. -/
theorem listDirectory_iterator_error_witness :
    (listDirectory memHost (sampleWorld "/gone")).cout =
      [] ++ ["\nContents of " ++ quoted "/gone" ++ ":\n",
        "Error listing directory: " ++ "No such file or directory" ++ "\n"] :=
  (listDirectory_iterator_error memHost (sampleWorld "/gone") "No such file or directory"
    rfl).1

/-- C3, counterexample. In `/a/b`, `mkdir ..` and `rm ..` hand `/a/b/..` to the
filesystem, while `cd ..` computes the parent `/a`. -/
theorem createDirectory_dotdot_not_parent :
    (createDirectory memHost (sampleWorld "/a/b") "..").calls =
      [.create_directory "/a/b/.."] ∧
    (removeFile memHost (sampleWorld "/a/b") "..").calls = [.fs_exists "/a/b/.."] ∧
    (copyFile memHost (sampleWorld "/a/b") ".." "x").calls = [.fs_exists "/a/b/.."] ∧
    (moveFile memHost (sampleWorld "/a/b") ".." "x").calls = [.fs_exists "/a/b/.."] ∧
    newPath "/a/b" ".." = "/a" ∧
    (changeDirectory memHost (sampleWorld "/a/b") "..").calls =
      [.fs_exists "/a", .is_directory "/a", .canonical "/a"] ∧
    decide (path_append "/a/b" ".." = newPath "/a/b" "..") = false :=
  ⟨by decide, by decide, by decide, by decide, by decide, by decide, by decide⟩

/-- C3, amended. `mkdir`, `cp`, `mv` and `rm` resolve every argument as
`currentPath / argument`: an argument beginning with `/` is taken as that
absolute path and any other argument, `..` included, is joined to the working
directory. These are the only paths handed to the filesystem, and for every
argument other than `..` this is the path `changeDirectory` computes. -/
theorem arguments_are_joined_to_currentPath (h : Host σ) (st : World σ) (a b : String) :
    (createDirectory h st a).calls =
      st.calls ++ [.create_directory (path_append st.currentPath a)] ∧
    ((copyFile h st a b).calls = st.calls ++ [.fs_exists (path_append st.currentPath a)] ∨
      (copyFile h st a b).calls = st.calls ++ [.fs_exists (path_append st.currentPath a),
        .copy (path_append st.currentPath a) (path_append st.currentPath b)]) ∧
    ((moveFile h st a b).calls = st.calls ++ [.fs_exists (path_append st.currentPath a)] ∨
      (moveFile h st a b).calls = st.calls ++ [.fs_exists (path_append st.currentPath a),
        .rename (path_append st.currentPath a) (path_append st.currentPath b)]) ∧
    ((removeFile h st a).calls = st.calls ++ [.fs_exists (path_append st.currentPath a)] ∨
      (removeFile h st a).calls = st.calls ++ [.fs_exists (path_append st.currentPath a),
        .remove_all (path_append st.currentPath a)]) ∧
    path_append st.currentPath a =
      (if charAt0 a = '/' then a
       else if has_filename st.currentPath then st.currentPath ++ "/" ++ a
       else st.currentPath ++ a) ∧
    newPath st.currentPath a =
      (if a = ".." then parent_path st.currentPath else path_append st.currentPath a) := by
  refine ⟨?_, ?_, ?_, ?_, ?_, ?_⟩
  · unfold createDirectory
    simp only [log, emit]
    split <;> rfl
  · unfold copyFile
    simp only [log, emit]
    split
    · exact Or.inl rfl
    · exact Or.inl rfl
    · split <;> exact Or.inr (by simp)
  · unfold moveFile
    simp only [log, emit]
    split
    · exact Or.inl rfl
    · exact Or.inl rfl
    · split <;> exact Or.inr (by simp)
  · unfold removeFile
    simp only [log, emit]
    split
    · exact Or.inl rfl
    · exact Or.inl rfl
    · split <;> exact Or.inr (by simp)
  · simp [path_append, is_absolute]
  · unfold newPath path_append is_absolute
    by_cases h1 : a = ".."
    · simp [h1]
    · by_cases h2 : charAt0 a = '/' <;> simp [h1, h2]


/-! ### The listing -/

theorem comp_of_kinds (h : Host σ) (disk : σ) (dir a b : String) (calls : List Call)
    (ka kb : Bool)
    (ha : h.is_directory disk (path_append dir a) = .ok ka)
    (hb : h.is_directory disk (path_append dir b) = .ok kb) :
    ∃ calls2, comp h disk dir a b calls =
      (.ok ((ka && !kb) || (!(!ka && kb) && pathLess a.data b.data)), calls2) := by
  unfold comp
  simp only [ha, hb]
  cases ka <;> cases kb <;> simp

theorem pathLess_iff_lex : ∀ (l1 l2 : List Char),
    pathLess l1 l2 = true ↔ List.Lex (· < ·) l1 l2
  | _, [] => by
    cases ‹List Char› <;> simp [pathLess, List.Lex.not_nil_right]
  | [], b :: bs => by simp [pathLess, List.Lex.nil]
  | a :: as, b :: bs => by
    have hiff : ∀ x y : Char, x.toNat < y.toNat ↔ x < y := fun _ _ => Iff.rfl
    unfold pathLess
    by_cases h1 : a < b
    · simp [(hiff a b).mpr h1, List.Lex.rel h1]
    · by_cases h2 : b < a
      · have hn : ¬ a.toNat < b.toNat := fun h => h1 ((hiff a b).mp h)
        simp only [hn, if_false, (hiff b a).mpr h2, if_true]
        constructor
        · intro hf; cases hf
        · intro hl
          cases hl with
          | cons hl => exact absurd h2 (lt_irrefl _)
          | rel hr => exact absurd hr h1
      · have hn1 : ¬ a.toNat < b.toNat := fun h => h1 ((hiff a b).mp h)
        have hn2 : ¬ b.toNat < a.toNat := fun h => h2 ((hiff b a).mp h)
        have hab : a = b := le_antisymm (not_lt.mp h2) (not_lt.mp h1)
        subst hab
        simp only [hn1, if_false]
        rw [pathLess_iff_lex as bs]
        exact List.Lex.cons_iff.symm

theorem pathLess_iff_lt (a b : String) : pathLess a.data b.data = true ↔ a < b := by
  rw [pathLess_iff_lex, String.lt_iff_toList_lt]
  exact Iff.rfl

theorem listedBefore_of_comp {kind : String → Bool} {a b : String}
    (hc : ((kind a && !kind b) || (!(!kind a && kind b) && pathLess a.data b.data)) = true) :
    listedBefore kind a b := by
  unfold listedBefore
  cases ha : kind a <;> cases hb : kind b <;> simp [ha, hb] at hc
  · exact Or.inr ⟨rfl, le_of_lt ((pathLess_iff_lt a b).mp hc)⟩
  · exact Or.inl ⟨rfl, rfl⟩
  · exact Or.inr ⟨rfl, le_of_lt ((pathLess_iff_lt a b).mp hc)⟩

theorem listedBefore_of_not_comp {kind : String → Bool} {a b : String}
    (hc : ((kind a && !kind b) || (!(!kind a && kind b) && pathLess a.data b.data)) = false) :
    listedBefore kind b a := by
  unfold listedBefore
  have hle : pathLess a.data b.data = false → b ≤ a := fun hf =>
    not_lt.mp fun hlt => by rw [(pathLess_iff_lt a b).mpr hlt] at hf; cases hf
  cases ha : kind a <;> cases hb : kind b <;> simp [ha, hb] at hc
  · exact Or.inr ⟨rfl, hle hc⟩
  · exact Or.inl ⟨rfl, rfl⟩
  · exact Or.inr ⟨rfl, hle hc⟩

theorem listedBefore_trans {kind : String → Bool} {a b c : String}
    (hab : listedBefore kind a b) (hbc : listedBefore kind b c) : listedBefore kind a c := by
  unfold listedBefore at *
  rcases hab with ⟨h1, h2⟩ | ⟨h1, h2⟩ <;> rcases hbc with ⟨h3, h4⟩ | ⟨h3, h4⟩
  · rw [h2] at h3; cases h3
  · exact Or.inl ⟨h1, by rw [← h3]; exact h2⟩
  · exact Or.inl ⟨by rw [h1]; exact h3, h4⟩
  · exact Or.inr ⟨h1.trans h3, le_trans h2 h4⟩

theorem insertSorted_spec (h : Host σ) (disk : σ) (dir : String) (kind : String → Bool)
    (a : String) (ha : h.is_directory disk (path_append dir a) = .ok (kind a)) :
    ∀ (l : List String) (calls : List Call),
      (∀ x ∈ l, h.is_directory disk (path_append dir x) = .ok (kind x)) →
      l.Pairwise (listedBefore kind) →
      ∃ l2 calls2, insertSorted (comp h disk dir) a l calls = (.ok l2, calls2) ∧
        l2.Perm (a :: l) ∧ l2.Pairwise (listedBefore kind)
  | [], calls, _, _ => ⟨[a], calls, rfl, List.Perm.refl _, List.pairwise_singleton _ _⟩
  | b :: l, calls, hk, hs => by
    have hb := hk b (List.mem_cons_self _ _)
    obtain ⟨calls1, hcomp⟩ := comp_of_kinds h disk dir a b calls (kind a) (kind b) ha hb
    unfold insertSorted
    rw [hcomp]
    cases hc : ((kind a && !kind b) || (!(!kind a && kind b) && pathLess a.data b.data)) with
    | true =>
      refine ⟨a :: b :: l, calls1, rfl, List.Perm.refl _, ?_⟩
      have hab := listedBefore_of_comp hc
      refine List.Pairwise.cons ?_ hs
      intro x hx
      rcases List.mem_cons.mp hx with rfl | hx
      · exact hab
      · exact listedBefore_trans hab (List.rel_of_pairwise_cons hs hx)
    | false =>
      obtain ⟨l2, calls2, e, hp, hs2⟩ := insertSorted_spec h disk dir kind a ha l calls1
        (fun x hx => hk x (List.mem_cons_of_mem _ hx)) (List.Pairwise.of_cons hs)
      simp only [e]
      refine ⟨b :: l2, calls2, rfl, ?_, ?_⟩
      · exact (List.Perm.cons b hp).trans (List.Perm.swap a b l)
      · refine List.Pairwise.cons ?_ hs2
        intro x hx
        rcases List.mem_cons.mp (hp.subset hx) with rfl | hx
        · exact listedBefore_of_not_comp hc
        · exact List.rel_of_pairwise_cons hs hx

theorem sort_spec (h : Host σ) (disk : σ) (dir : String) (kind : String → Bool) :
    ∀ (l : List String) (calls : List Call),
      (∀ x ∈ l, h.is_directory disk (path_append dir x) = .ok (kind x)) →
      ∃ l2 calls2, sort (comp h disk dir) l calls = (.ok l2, calls2) ∧
        l2.Perm l ∧ l2.Pairwise (listedBefore kind)
  | [], calls, _ => ⟨[], calls, rfl, List.Perm.refl _, List.Pairwise.nil⟩
  | a :: l, calls, hk => by
    obtain ⟨l1, calls1, e1, hp1, hs1⟩ := sort_spec h disk dir kind l calls
      (fun x hx => hk x (List.mem_cons_of_mem _ hx))
    obtain ⟨l2, calls2, e2, hp2, hs2⟩ := insertSorted_spec h disk dir kind a
      (hk a (List.mem_cons_self _ _)) l1 calls1
      (fun x hx => hk x (List.mem_cons_of_mem _ (hp1.subset hx))) hs1
    unfold sort
    simp only [e1, e2]
    exact ⟨l2, calls2, rfl, hp2.trans (List.Perm.cons a hp1), hs2⟩

theorem displayItems_spec (h : Host σ) (dir : String) (kind : String → Bool) :
    ∀ (items : List String) (st : World σ),
      (∀ x ∈ items, h.is_directory st.disk (path_append dir x) = .ok (kind x)) →
      ∃ st2, displayItems h dir items st = (.ok (), st2) ∧
        st2.cout = st.cout ++
          items.map (fun n => (if kind n then "[DIR] " else "[FILE] ") ++ n ++ "\n")
  | [], st, _ => ⟨st, rfl, by simp⟩
  | entry :: rest, st, hk => by
    have he := hk entry (List.mem_cons_self _ _)
    obtain ⟨st2, e, hc⟩ := displayItems_spec h dir kind rest
      (emit (log st (.is_directory (path_append dir entry)))
        ((if kind entry then "[DIR] " else "[FILE] ") ++ entry ++ "\n"))
      (fun x hx => hk x (List.mem_cons_of_mem _ hx))
    refine ⟨st2, ?_, ?_⟩
    · unfold displayItems
      simp only [log, he]
      exact e
    · rw [hc]
      simp [emit, log]

theorem split_by_kind (kind : String → Bool) :
    ∀ (l : List String), l.Pairwise (listedBefore kind) →
      ∃ dirs files, l = dirs ++ files ∧ (∀ d ∈ dirs, kind d = true) ∧
        (∀ f ∈ files, kind f = false) ∧
        dirs.Pairwise (fun a b => a ≤ b) ∧ files.Pairwise (fun a b => a ≤ b)
  | [], _ => ⟨[], [], rfl, by simp, by simp, List.Pairwise.nil, List.Pairwise.nil⟩
  | a :: l, hs => by
    obtain ⟨dirs, files, e, hd, hf, sd, sf⟩ := split_by_kind kind l (List.Pairwise.of_cons hs)
    have hrel : ∀ x ∈ l, listedBefore kind a x := fun x hx => List.rel_of_pairwise_cons hs hx
    subst e
    cases ha : kind a with
    | true =>
      refine ⟨a :: dirs, files, rfl, ?_, hf, ?_, sf⟩
      · intro d hdm
        rcases List.mem_cons.mp hdm with rfl | hdm
        · exact ha
        · exact hd d hdm
      · refine List.Pairwise.cons ?_ sd
        intro x hx
        rcases hrel x (List.mem_append_left _ hx) with ⟨_, h2⟩ | ⟨_, h2⟩
        · rw [hd x hx] at h2; cases h2
        · exact h2
    | false =>
      have hnil : dirs = [] := by
        cases dirs with
        | nil => rfl
        | cons d ds =>
          have hkd := hd d (List.mem_cons_self _ _)
          rcases hrel d (List.mem_append_left _ (List.mem_cons_self _ _)) with ⟨h1, _⟩ | ⟨h1, _⟩
          · rw [ha] at h1; cases h1
          · rw [ha, hkd] at h1; cases h1
      subst hnil
      refine ⟨[], a :: files, rfl, by simp, ?_, List.Pairwise.nil, ?_⟩
      · intro f hfm
        rcases List.mem_cons.mp hfm with rfl | hfm
        · exact ha
        · exact hf f hfm
      · refine List.Pairwise.cons ?_ sf
        intro x hx
        rcases hrel x (by simpa using hx) with ⟨h1, _⟩ | ⟨_, h2⟩
        · rw [ha] at h1; cases h1
        · exact h2

/-- C4. `ls` ordering: when the iterator yields the entries `names` and
`is_directory` gives each entry a kind, `listDirectory` writes the header and
then one line per entry, the written entries being a rearrangement of `names`
in which all directories (`dirs`) come before all other entries (`files`) and
each group is in ascending lexicographic order of filename; a directory is
written as `[DIR] name`, any other entry as `[FILE] name`. -/
theorem listDirectory_order (h : Host σ) (st : World σ) (names : List String)
    (kind : String → Bool)
    (hiter : h.directory_iterator st.disk st.currentPath = .ok names)
    (hkind : ∀ n ∈ names,
      h.is_directory st.disk (path_append st.currentPath n) = .ok (kind n)) :
    ∃ dirs files : List String, (dirs ++ files).Perm names ∧
      (∀ d ∈ dirs, kind d = true) ∧ (∀ f ∈ files, kind f = false) ∧
      dirs.Pairwise (fun a b => a ≤ b) ∧ files.Pairwise (fun a b => a ≤ b) ∧
      (listDirectory h st).cout =
        st.cout ++ ("\nContents of " ++ quoted st.currentPath ++ ":\n") ::
          (dirs.map (fun n => "[DIR] " ++ n ++ "\n") ++
            files.map (fun n => "[FILE] " ++ n ++ "\n")) := by
  obtain ⟨l2, calls2, es, hp, hs⟩ := sort_spec h st.disk st.currentPath kind names
    (st.calls ++ [.directory_iterator st.currentPath]) hkind
  obtain ⟨dirs, files, e, hd, hf, sd, sf⟩ := split_by_kind kind l2 hs
  obtain ⟨st2, ed, hc⟩ := displayItems_spec h st.currentPath kind l2
    { currentPath := st.currentPath, disk := st.disk,
      cout := st.cout ++ ["\nContents of " ++ quoted st.currentPath ++ ":\n"],
      calls := calls2 }
    (fun x hx => hkind x (hp.subset hx))
  refine ⟨dirs, files, e ▸ hp, hd, hf, sd, sf, ?_⟩
  have hl : listDirectory h st = st2 := by
    unfold listDirectory
    simp only [log, emit, hiter, es, ed]
  rw [hl, hc, e]
  have hdm : dirs.map (fun n => (if kind n then "[DIR] " else "[FILE] ") ++ n ++ "\n") =
      dirs.map (fun n => "[DIR] " ++ n ++ "\n") :=
    List.map_congr_left fun n hn => by simp [hd n hn]
  have hfm : files.map (fun n => (if kind n then "[DIR] " else "[FILE] ") ++ n ++ "\n") =
      files.map (fun n => "[FILE] " ++ n ++ "\n") :=
    List.map_congr_left fun n hn => by simp [hf n hn]
  simp [hdm, hfm]

/-- Witness for C4: `ls` in `/a` of the sample disk, whose entries the host
yields as `x`, `docs`, `b`, `readme`. -/
theorem listDirectory_order_witness :
    (listDirectory memHost (sampleWorld "/a")).cout =
      ["\nContents of \"/a\":\n", "[DIR] b\n", "[DIR] docs\n", "[FILE] readme\n",
       "[FILE] x\n"] ∧
    ∃ dirs files : List String, (dirs ++ files).Perm ["x", "docs", "b", "readme"] ∧
      (∀ d ∈ dirs, decide (d = "docs" ∨ d = "b") = true) ∧
      (∀ f ∈ files, decide (f = "docs" ∨ f = "b") = false) ∧
      dirs.Pairwise (fun a b => a ≤ b) ∧ files.Pairwise (fun a b => a ≤ b) ∧
      (listDirectory memHost (sampleWorld "/a")).cout =
        [] ++ ("\nContents of " ++ quoted "/a" ++ ":\n") ::
          (dirs.map (fun n => "[DIR] " ++ n ++ "\n") ++
            files.map (fun n => "[FILE] " ++ n ++ "\n")) :=
  ⟨by decide,
    listDirectory_order memHost (sampleWorld "/a") ["x", "docs", "b", "readme"]
      (fun n => decide (n = "docs" ∨ n = "b")) rfl
      (fun n hn => by
        simp only [List.mem_cons, List.mem_singleton, List.not_mem_nil, or_false] at hn
        rcases hn with rfl | rfl | rfl | rfl <;> rfl)⟩


/-! ### End of input -/

theorem iteration_empty (h : Host σ) (st : World σ) :
    iteration h st "" = some (.next, st, "") := rfl

theorem getline_exhausted (cin : IStream) (command : String) (hbuf : cin.buf = [])
    (hc : (cin.eofbit || cin.failbit) = false ∨ command = "") :
    (getline cin command).2 = "" ∧ (getline cin command).1.buf = [] ∧
      ((getline cin command).1.eofbit || (getline cin command).1.failbit) = true := by
  unfold getline
  cases hs : (cin.eofbit || cin.failbit) with
  | true =>
    rcases hc with hc | hc
    · rw [hs] at hc; cases hc
    · subst hc
      simp [hbuf]
  | false =>
    simp [hbuf, splitLine]

theorem startLoop_exhausted (h : Host σ) :
    ∀ (fuel : Nat) (st : World σ) (cin : IStream) (command : String),
      cin.buf = [] → ((cin.eofbit || cin.failbit) = false ∨ command = "") →
      startLoop h fuel st cin command = none
  | 0, _, _, _, _, _ => rfl
  | fuel + 1, st, cin, command, hbuf, hc => by
    obtain ⟨e1, e2, e3⟩ := getline_exhausted cin command hbuf hc
    unfold startLoop
    simp only [e1, iteration_empty]
    exact startLoop_exhausted h fuel _ _ _ e2 (Or.inr rfl)

theorem splitLine_line : ∀ (l rest : List Char), '\n' ∉ l →
    splitLine (l ++ '\n' :: rest) = (l, rest, true)
  | [], rest, _ => by simp [splitLine]
  | c :: l, rest, hn => by
    have hc : c ≠ '\n' := fun e => hn (by simp [e])
    have hl : '\n' ∉ l := fun hm => hn (List.mem_cons_of_mem _ hm)
    simp [splitLine, hc, splitLine_line l rest hl]

theorem dispatch_flow (h : Host σ) (st : World σ) (args : List String)
    (hx : args.headD "" ≠ "exit") : (dispatch h st args).1 = .next := by
  unfold dispatch
  simp only [hx, if_false]
  split_ifs <;> rfl

theorem iteration_next (h : Host σ) (st : World σ) (line : String)
    (hx : ∀ args, tokenize line = some args → args.headD "" ≠ "exit") :
    ∃ st2 command, iteration h st line = some (.next, st2, command) := by
  obtain ⟨toks, last, e1, e2, -⟩ := tokenize_total line
  by_cases hd : line.data = []
  · exact ⟨st, line, by simp [iteration, hd]⟩
  · refine ⟨(dispatch h st (toks ++ [last])).2, last, ?_⟩
    simp only [iteration, hd, if_false, e1]
    rw [dispatch_flow h st _ (hx _ e2)]

theorem startLoop_no_exit (h : Host σ) :
    ∀ (lines : List String) (fuel : Nat) (st : World σ) (command : String),
      (∀ l ∈ lines, '\n' ∉ l.data ∧
        ∀ args, tokenize l = some args → args.headD "" ≠ "exit") →
      startLoop h fuel st
        ⟨(lines.map fun l => l.data ++ ['\n']).flatten, false, false⟩ command = none
  | [], fuel, st, command, _ => startLoop_exhausted h fuel st _ command rfl (Or.inl rfl)
  | l :: lines, 0, _, _, _ => rfl
  | l :: lines, fuel + 1, st, command, hl => by
    obtain ⟨hnl, hx⟩ := hl l (List.mem_cons_self _ _)
    have hg : getline ⟨((l :: lines).map fun l => l.data ++ ['\n']).flatten, false, false⟩
        command = (⟨(lines.map fun l => l.data ++ ['\n']).flatten, false, false⟩, l) := by
      simp [getline, splitLine_line l.data _ hnl]
    obtain ⟨st2, c2, hi⟩ := iteration_next h
      (emit st ("\n" ++ quoted st.currentPath ++ "> ")) l hx
    unfold startLoop
    simp only [hg, hi]
    exact startLoop_no_exit h lines fuel st2 c2 fun x hxm => hl x (List.mem_cons_of_mem _ hxm)

/-- C5 (what the code does). For every finite sequence of input lines none of
which is an exit command, each ended by a newline, the loop of `start` has not
returned after any number of passes: `getline` fails at the end of input,
`command` is left empty, the pass ends at `continue` and the next one
begins. `main` never reaches `return 0`. The empty sequence is the case of an
empty standard input. -/
theorem start_spins_at_end_of_input (h : Host σ) (st : World σ) (fuel : Nat)
    (current_path : String) (disk : σ) (lines : List String)
    (hlines : ∀ l ∈ lines, '\n' ∉ l.data ∧
      ∀ args, tokenize l = some args → args.headD "" ≠ "exit") :
    start h fuel st ⟨(lines.map fun l => l.data ++ ['\n']).flatten, false, false⟩ = none ∧
    main h fuel current_path disk
      ⟨(lines.map fun l => l.data ++ ['\n']).flatten, false, false⟩ = none ∧
    start h fuel st ⟨[], false, false⟩ = none := by
  refine ⟨startLoop_no_exit h lines fuel _ _ hlines, ?_,
    startLoop_exhausted h fuel _ _ _ rfl (Or.inl rfl)⟩
  unfold main
  have := startLoop_no_exit h lines fuel
    (emit (emit { currentPath := current_path, disk := disk, cout := [], calls := [] }
      "\nUmer File Manager\n") "Type 'help' for available commands\n") "" hlines
  simp only [start, this]
  rfl

/-- Witness for C5: the input `pwd`, `ls`, end of input, with fuel for a
hundred passes. -/
theorem start_spins_at_end_of_input_witness :
    start memHost 100 (sampleWorld "/a") ⟨"pwd\nls\n".data, false, false⟩ = none ∧
    main memHost 100 "/a" sampleDisk ⟨"pwd\nls\n".data, false, false⟩ = none :=
  have t := start_spins_at_end_of_input memHost (sampleWorld "/a") 100 "/a" sampleDisk
    ["pwd", "ls"] (fun l hl => by
      simp only [List.mem_cons, List.mem_singleton, List.not_mem_nil, or_false] at hl
      rcases hl with rfl | rfl
      · exact ⟨by decide, fun args ha => by
          have e : tokenize "pwd" = some ["pwd"] := by decide
          rw [e] at ha; cases ha; decide⟩
      · exact ⟨by decide, fun args ha => by
          have e : tokenize "ls" = some ["ls"] := by decide
          rw [e] at ha; cases ha; decide⟩)
  ⟨t.1, t.2.1⟩

end FileManager
